import Mathlib

/-!
Verification of the tree-building and merging core of a Jest test-adapter.

The development shallowly embeds the two source files
`src/helpers/JestToTestAdapterMapper.ts` and `src/TestLoader.ts`:

* JavaScript objects `TestInfo` / `TestSuiteInfo` become the tagged union `Node`
  (the code discriminates by (truthiness of) the `children` field, which an
  array always has, even when empty, while tests never have one).
* Machine strings are Lean `String`s; JS `undefined`-able fields become `Option`s.
* Exceptions and promise rejections are `Except Unit`: an async function body is
  a sequence of binds, so a rejection aborts everything after it.
* The file system and the external parser are passed in as data (`FSTree`),
  letting the exploration functions stay pure while keeping their control flow.
-/

/-- Tagged union of the two node kinds produced by the mapper and the loader.
A TS `TestInfo` has no `children` field; a `TestSuiteInfo` always has one
(possibly the empty array).  Field order: id, label, file, line, then the
variant-specific field (`skipped` for tests, `children` for suites). -/
inductive Node where
  | test (id label : String) (file : Option String) (line : Option Nat) (skipped : Option Bool)
  | suite (id label : String) (file : Option String) (line : Option Nat) (children : List Node)

/-- The `id` field shared by both node kinds. -/
def Node.id : Node → String
  | .test i _ _ _ _ => i
  | .suite i _ _ _ _ => i

/-- Truthiness of the `children` field, the discriminator used by `merge`:
a suite's `children` is an array (truthy even when empty), a test has none. -/
def Node.isSuite : Node → Bool
  | .test _ _ _ _ _ => false
  | .suite _ _ _ _ _ => true

/-- The `children` field, defaulting to `[]` for tests. -/
def Node.childrenD : Node → List Node
  | .test _ _ _ _ _ => []
  | .suite _ _ _ _ cs => cs

/-- The `skipped` field (tests only). -/
def Node.skippedD : Node → Option Bool
  | .test _ _ _ _ sk => sk
  | .suite _ _ _ _ _ => none

/-- The `line` field. -/
def Node.lineD : Node → Option Nat
  | .test _ _ _ ln _ => ln
  | .suite _ _ _ ln _ => ln

/-- Modelled from the spec: `TEST_ID_SEPARATOR` lives in `src/constants.ts`,
which is not among the provided sources.  The spec describes it as "a fixed
delimiter distinct from any path or regex character" and its leaf-wins example
writes test ids as `a.test.ts#^x$`, so the delimiter is `#`. -/
def TEST_ID_SEPARATOR : String := "#"

/-- Characters with a meaning in JS regular expressions. -/
def isRegexMeta (c : Char) : Bool :=
  c = '.' || c = '*' || c = '+' || c = '?' || c = '^' || c = '$' || c = '\x7b' ||
  c = '\x7d' || c = '(' || c = ')' || c = '|' || c = '[' || c = ']' || c = '\\'

/-- Modelled from the spec: the helper `src/helpers/escapeRegExp.ts` is not
among the provided sources; per the spec the test title is
"regex-literal-escaped".  The canonical implementation prefixes every regex
metacharacter with a backslash. -/
def escapeRegExp (s : String) : String :=
  String.mk (s.data.foldr (fun c acc => if isRegexMeta c then '\\' :: c :: acc else c :: acc) [])

/-- Does `s` start with `pat` (exact characters)? -/
def startsWithL (pat s : List Char) : Bool :=
  s.take pat.length == pat

/-- JS `String.prototype.split` with a plain-string separator, scanning for
leftmost non-overlapping occurrences.  The `Nat` argument counts separator
characters still to skip after a hit; the third list accumulates the current
piece in reverse.  (The empty-separator behaviour of JS, splitting into single
characters, is not modelled; the separators used here are never empty.) -/
def jsSplitAux (sep : List Char) : Nat → List Char → List Char → List String
  | n + 1, _ :: cs, acc => jsSplitAux sep n cs acc
  | _, [], acc => [String.mk acc.reverse]
  | 0, c :: cs, acc =>
    if !sep.isEmpty && startsWithL sep (c :: cs) then
      String.mk acc.reverse :: jsSplitAux sep (sep.length - 1) cs []
    else jsSplitAux sep 0 cs (c :: acc)

/-- `s.split(sep)` for a non-empty plain-string separator. -/
def jsSplit (s sep : String) : List String :=
  jsSplitAux sep.data 0 s.data []

/-- JS `String.prototype.includes`: scan for an exact occurrence of `pat`. -/
def jsIncludesAux (pat : List Char) : List Char → Bool
  | [] => pat.isEmpty
  | c :: cs => startsWithL pat (c :: cs) || jsIncludesAux pat cs

/-- `s.includes(pat)`. -/
def jsIncludes (s pat : String) : Bool :=
  jsIncludesAux pat.data s.data

/-- Case-insensitive comparison of `pat` against the first `pat.length`
characters of `s` (the regex is built with the `i` flag). -/
def matchesAt (pat s : List Char) : Bool :=
  (s.take pat.length).map Char.toLower == pat.map Char.toLower

/-- One pass of `String.prototype.replace(new RegExp(escapeRegExp(pat), "ig"), "")`:
leftmost, non-overlapping, case-insensitive occurrences of the literal `pat`
are deleted.  The `Nat` argument counts characters still to skip inside a
match already consumed. -/
def removeAux (pat : List Char) : Nat → List Char → List Char
  | _, [] => []
  | n + 1, _ :: cs => removeAux pat n cs
  | 0, c :: cs =>
    if !pat.isEmpty && matchesAt pat (c :: cs) then removeAux pat (pat.length - 1) cs
    else c :: removeAux pat 0 cs

/-- Does a case-insensitive occurrence of `pat` appear anywhere in `l`? -/
def hasMatchCI (pat : List Char) : List Char → Bool
  | [] => false
  | c :: cs => matchesAt pat (c :: cs) || hasMatchCI pat cs

/-- `.replace(/\\/g, "/")`: normalize every backslash to a forward slash. -/
def normSlashes (l : List Char) : List Char :=
  l.map (fun c => if c = '\\' then '/' else c)

/-- The strip-and-normalize step shared by `getTestId` and
`transformFileResultIntoTree`: delete every case-insensitive occurrence of the
working directory, then normalize separators. -/
def stripWorkDir (workDir fileName : String) : String :=
  String.mk (normSlashes (removeAux workDir.data 0 fileName.data))

/-- `JestToTestAdapterMapper.getTestId`. -/
def getTestId (workDir fileName testName : String) : String :=
  stripWorkDir workDir fileName ++ TEST_ID_SEPARATOR ++ "^" ++ escapeRegExp testName ++ "$"

/-- Functional rendering of the in-place mutation of `existingResult.children`
performed by `merge`: the first destination entry carrying the given id is
replaced by the supplied node. -/
def replaceFirstById (dest : List Node) (i : String) (n : Node) : List Node :=
  match dest with
  | [] => []
  | x :: xs => if x.id == i then n :: xs else x :: replaceFirstById xs i n

mutual

/-- `JestToTestAdapterMapper.merge`: the TS code walks the source sequence and
applies `mergeStep` to each entry in order, mutating (here: threading) the
destination. -/
def merge (dest : List Node) : List Node → List Node
  | [] => dest
  | s :: rest => merge (mergeStep dest s) rest
termination_by src => sizeOf src

/-- Body of `merge` for one source entry: look for an existing destination
entry with the same id; only when both the existing entry and the source entry
have a (truthy) `children` field recurse into their children; in every other
case push the source entry onto the destination. -/
def mergeStep (dest : List Node) (s : Node) : List Node :=
  match dest.find? (fun r => r.id == s.id) with
  | none => dest ++ [s]
  | some ex =>
    match ex, s with
    | Node.suite i lb f ln cs, Node.suite _ _ _ _ cs2 =>
      replaceFirstById dest i (Node.suite i lb f ln (merge cs cs2))
    | _, _ => dest ++ [s]
termination_by sizeOf s

end

mutual

/-- `createDirectoryStructure`, folded over the path segments.  The TS function
carries a (possibly negative) index into `thePath`; here the `Nat` fuel equals
`index + 1`, so fuel `0` is the out-of-range index `-1` (`undefined` element).
At each level: read the current segment; an `undefined` segment ends the
recursion; an empty segment (from a leading separator) hands over to `cdsSkip`,
the factored-out body of the TS single-decrement branch; otherwise wrap the
current level in a synthetic suite whose id is the segments up to and
including the current one joined by `/` and whose label is the current
segment. -/
def cds (segs : List String) : Node → Nat → Node
  | t, 0 => t
  | t, j + 1 =>
    match segs.get? j with
    | none => t
    | some el =>
      if el = "" then cdsSkip segs t j
      else cds segs (Node.suite (String.intercalate "/" (segs.take (j + 1))) el none none [t]) j
termination_by _ j => j

/-- The TS branch for an empty current segment: the index is decremented once
(here the fuel `j` already is `index`), the segment there is re-read — an
undefined read (index `-1` or out of range) ends the recursion, any other
segment (a second empty one included) becomes the wrapper suite. -/
def cdsSkip (segs : List String) (t : Node) : Nat → Node
  | 0 => t
  | k + 1 =>
    match segs.get? k with
    | none => t
    | some el2 =>
      cds segs (Node.suite (String.intercalate "/" (segs.take (k + 1))) el2 none none [t]) k
termination_by k => k

end

/-- `JestToTestAdapterMapper.transformFileResultIntoTree`: strip the working
directory, split the relative path on `/`, build the innermost file suite
(id = relative path, label = last segment, children = the file's test cases)
and wrap it via `createDirectoryStructure` starting at the second-to-last
segment. -/
def transformFileResultIntoTree (workDir resultFileName : String) (fileTestCases : List Node) : Node :=
  let pathWithoutWorkDir := stripWorkDir workDir resultFileName
  let path := jsSplit pathWithoutWorkDir "/"
  let lastChild := Node.suite pathWithoutWorkDir (path.getLastD "") (some resultFileName) none fileTestCases
  cds path lastChild (path.length - 1)

/-- The `ITestFilter` shape from `src/types.ts` (not among the provided
sources), reconstructed from its construction sites in the mapper:
`testFileNamePattern` is always set, `testNamePattern` only on the
test-identifier branch. -/
structure ITestFilter where
  testFileNamePattern : String
  testNamePattern : Option String
deriving DecidableEq

/-- `JestToTestAdapterMapper.mapTestIdsToTestFilter`.  On the empty list the
TS code evaluates `tests[0].includes(...)` on `undefined` (the guarded `root`
comparison short-circuits first) and throws a `TypeError`, modelled as
`Except.error`.  `t.split(sep)[1]` is `undefined` for an id without the
separator, which a template literal renders as the string `"undefined"`. -/
def mapTestIdsToTestFilter (tests : List String) : Except Unit (Option ITestFilter) :=
  match tests with
  | [] => Except.error ()
  | t0 :: _ =>
    if t0 = "root" then Except.ok none
    else if jsIncludes t0 TEST_ID_SEPARATOR then
      Except.ok (some
        { testFileNamePattern :=
            "(" ++ String.intercalate "|"
              (tests.map (fun t => (jsSplit t TEST_ID_SEPARATOR).headD "")) ++ ")",
          testNamePattern := some
            ("(" ++ String.intercalate "|"
              (tests.map (fun t => ((jsSplit t TEST_ID_SEPARATOR).get? 1).getD "undefined")) ++ ")") })
    else
      Except.ok (some
        { testFileNamePattern := "(" ++ String.intercalate "|" tests ++ ")",
          testNamePattern := none })

/-- One `itBlock` of a `jest-editor-support` parse result, restricted to the
fields the mapper reads; `name` can be absent (`undefined`). -/
structure ItBlock where
  file : String
  name : Option String
  startLine : Nat

/-- One file's parse result (`IParseResults`), restricted to the fields read. -/
structure IParseResults where
  itBlocks : List ItBlock

/-- The body of the `itBlocks.map` lambda in `mapJestParseToTestSuiteInfo`:
a falsy name (absent or the empty string) is replaced by the literal
`"test has no name"`, used both as the label and inside the id. -/
def mapItBlockToTestInfo (workDir : String) (b : ItBlock) : Node :=
  let testName := match b.name with
    | some n => if n = "" then "test has no name" else n
    | none => "test has no name"
  Node.test (getTestId workDir b.file testName) testName (some b.file) (some b.startLine) (some false)

/-- The per-file part of `mapJestParseToTestSuiteInfo`.  The TS `fileName`
variable starts as `null` and is overwritten by each iteration of the map, so
after the map it holds the last block's file — and stays `null` (falsy) when
the file has no it-blocks, in which case the file contributes `null`, which is
filtered away.  A last block whose `file` is the empty string is also falsy. -/
def mapFileParse (workDir : String) (testFile : IParseResults) : Option Node :=
  let testCases := testFile.itBlocks.map (mapItBlockToTestInfo workDir)
  match testFile.itBlocks.getLast? with
  | none => none
  | some lastB =>
    if lastB.file = "" then none
    else some (transformFileResultIntoTree workDir lastB.file testCases)

/-- `JestToTestAdapterMapper.mapJestParseToTestSuiteInfo`: map every parse
result, drop the `null`s, and merge the per-file trees under the fixed root. -/
def mapJestParseToTestSuiteInfo (workDir : String) (loadedTests : List IParseResults) : Node :=
  Node.suite "root" "Jest" none none (merge [] (loadedTests.filterMap (mapFileParse workDir)))

/-- One assertion result (`JestAssertionResults`), restricted to the fields
the mapper reads on this path. -/
structure JestAssertionResults where
  title : String
  fullName : String

/-- One file result (`JestFileResults`), restricted to the fields read. -/
structure JestFileResults where
  name : String

/-- One reconciled status record (`TestAssertionStatus`): `status` is the
status-kind string (`"KnownSkip"`, `"KnownSuccess"`, ...), `line` and
`terseMessage` may be absent. -/
structure TestAssertionStatus where
  title : String
  status : String
  line : Option Nat
  terseMessage : Option String

/-- The reconciled-results collaborator: `assertionsForTestFile` may return
`null` (modelled as `none`), which the mapper defaults to `[]`. -/
structure TestReconciler where
  assertionsForTestFile : String → Option (List TestAssertionStatus)

/-- `JestToTestAdapterMapper.getAssertionStatus`: with a reconciler, look up
the file's records (defaulting a `null` result to `[]`) and take the first
whose `title` equals the assertion's `fullName`; without one, `undefined`. -/
def getAssertionStatus (result : JestAssertionResults) (file : String)
    (reconciler : Option TestReconciler) : Option TestAssertionStatus :=
  match reconciler with
  | some r => ((r.assertionsForTestFile file).getD []).find? (fun x => x.title == result.fullName)
  | none => none

/-- `JestToTestAdapterMapper.mapJestAssertionToTestInfo`: `line` starts
`undefined` and `skipped` starts `false`; when a status resolves, `line`
becomes the status's (possibly absent) line and `skipped` becomes whether the
status kind is `"KnownSkip"`. -/
def mapJestAssertionToTestInfo (workDir : String) (assertionResult : JestAssertionResults)
    (fileResult : JestFileResults) (reconciler : Option TestReconciler) : Node :=
  let st := getAssertionStatus assertionResult fileResult.name reconciler
  Node.test (getTestId workDir fileResult.name assertionResult.fullName)
    assertionResult.title (some fileResult.name)
    (st.bind TestAssertionStatus.line)
    (some (match st with | some a => a.status == "KnownSkip" | none => false))

/-- Collapse runs of `/` while joining; the `Bool` records whether the
previous kept character was a separator. -/
def collapseAux : Bool → List Char → List Char
  | _, [] => []
  | prev, c :: rest =>
    if c = '/' then
      if prev then collapseAux true rest else c :: collapseAux true rest
    else c :: collapseAux false rest

/-- Model of Node's posix `path.join` on two segments, for the argument shapes
arising in this code base: the pieces are joined with `/` and runs of repeated
separators collapse; `.` and `..` segments do not occur here. -/
def pathJoin2 (a b : String) : String :=
  if a = "" then b
  else if b = "" then a
  else String.mk (collapseAux false (a ++ "/" ++ b).data)

/-- Model of Node's posix `path.basename` for the paths arising here: the last
non-empty `/`-separated segment. -/
def basename (s : String) : String :=
  ((jsSplit s "/").filter (fun seg => seg ≠ "")).getLastD s

/-- A parsed declaration node from `jest-editor-support` (`ParsedNode`): an
`it` leaf, a `describe` group, or some other kind (e.g. the root). -/
inductive ParsedNode where
  | it (name : String) (startLine : Nat)
  | describe (name : String) (startLine : Nat) (children : List ParsedNode)
  | other

/-- The root of a parse result; `root.children` (defaulted to `[]`). -/
structure ParsedRoot where
  children : List ParsedNode

mutual

/-- `TestLoader`'s free function `exploreNode`: an `it` leaf becomes a test
with id `path.join(file, prefix, name)`; a `describe` becomes a suite with the
same id scheme whose children are the recursively explored, non-null nodes;
other kinds yield `null`. -/
def exploreNode : ParsedNode → String → String → Option Node
  | ParsedNode.it name startLine, file, pfx =>
    some (Node.test (pathJoin2 (pathJoin2 file pfx) name) name (some file) (some startLine) none)
  | ParsedNode.describe name startLine children, file, pfx =>
    some (Node.suite (pathJoin2 (pathJoin2 file pfx) name) name (some file) (some startLine)
      (exploreChildren children file (pathJoin2 (pathJoin2 file pfx) name)))
  | ParsedNode.other, _, _ => none
termination_by n _ _ => sizeOf n

/-- `(describe.children || []).map((x) => exploreNode(x, file, id)).filter(Boolean)`. -/
def exploreChildren : List ParsedNode → String → String → List Node
  | [], _, _ => []
  | c :: cs, file, pfx =>
    match exploreNode c file pfx with
    | some n => n :: exploreChildren cs file pfx
    | none => exploreChildren cs file pfx
termination_by l _ _ => sizeOf l

end

/-- `TestLoader`'s free function `exploreFile`, with the parser's output for
the file supplied as `root`: build the file suite (id = the absolute file
path) over the explored, non-null declaration nodes. -/
def exploreFile (file : String) (root : ParsedRoot) : Node :=
  Node.suite file (basename file) (some file) none (exploreChildren root.children file file)

/-- The file-system model for the Directory Explorer: a file carries the
outcome of `parse` on it (`Except.error` when the parser throws), a directory
carries the outcome of `fs.readdir` (`readdirFails`) and its entries.
`fs.stat` is assumed to succeed, which every claim here is compatible with. -/
inductive FSTree where
  | file (name : String) (parsed : Except Unit ParsedRoot)
  | dir (name : String) (readdirFails : Bool) (entries : List FSTree)

/-- The entry's basename within its directory. -/
def fsName : FSTree → String
  | .file n _ => n
  | .dir n _ _ => n

/-- `getDirectoryContents`: reject when `fs.readdir` errors; otherwise drop
entries matching the `IGNORE_GLOBS` pattern `node_modules` and join each
remaining basename onto the directory path. -/
def getDirectoryContents (directory : String) (readdirFails : Bool) (entries : List FSTree) :
    Except Unit (List (String × FSTree)) :=
  if readdirFails then Except.error ()
  else Except.ok ((entries.filter (fun e => fsName e ≠ "node_modules")).map
    (fun e => (pathJoin2 directory (fsName e), e)))

mutual

/-- `TestLoader`'s free function `exploreDirectory`: list the contents (a
`readdir` rejection propagates), explore every entry (`Promise.all`: any
rejection rejects the whole directory), drop nulls and entries with no
children, and wrap the rest in a suite whose id is the absolute directory
path.  `getDirectoryContents`' success path (ignore-glob filter plus
`path.join`) is fused into `exploreAll`, which joins each basename onto the
directory path as it walks — the composed behaviour is unchanged. -/
def exploreDirectory (m : String → Bool) (directory : String) (readdirFails : Bool)
    (entries : List FSTree) : Except Unit Node :=
  if readdirFails then Except.error ()
  else
    match exploreAll m directory (entries.filter (fun e => fsName e ≠ "node_modules")) with
    | Except.error e => Except.error e
    | Except.ok children =>
      Except.ok (Node.suite directory (basename directory) (some directory) none
        ((children.filterMap id).filter (fun x => 0 < (Node.childrenD x).length)))
termination_by 2 * sizeOf entries + 1
decreasing_by
  have h : sizeOf (entries.filter (fun e => decide (fsName e ≠ "node_modules"))) ≤ sizeOf entries := by
    induction entries with
    | nil => simp
    | cons e es ih =>
      rw [List.filter_cons]
      split
      · simp only [List.cons.sizeOf_spec]; omega
      · simp only [List.cons.sizeOf_spec]; omega
  omega

/-- `Promise.all(contents.map((x) => evalueFilePath(x, matcher)))`, with
`Except` short-circuiting standing in for the rejection of `Promise.all`;
each entry is explored at the path `path.join(directory, basename)` computed
by `getDirectoryContents`. -/
def exploreAll (m : String → Bool) (directory : String) :
    List FSTree → Except Unit (List (Option Node))
  | [] => Except.ok []
  | e :: rest =>
    match evalueFilePath m (pathJoin2 directory (fsName e)) e with
    | Except.error err => Except.error err
    | Except.ok r =>
      match exploreAll m directory rest with
      | Except.error err => Except.error err
      | Except.ok rs => Except.ok (r :: rs)
termination_by l => 2 * sizeOf l

/-- `TestLoader`'s free function `evalueFilePath`: recurse into directories
(returning `null` for childless results), parse matched files (an uncaught
parser throw rejects), and return `null` for unmatched files. -/
def evalueFilePath (m : String → Bool) (filePath : String) : FSTree → Except Unit (Option Node)
  | FSTree.file _ parsed =>
    if m filePath then
      match parsed with
      | Except.error e => Except.error e
      | Except.ok root => Except.ok (some (exploreFile filePath root))
    else Except.ok none
  | FSTree.dir _ readdirFails entries =>
    match exploreDirectory m filePath readdirFails entries with
    | Except.error e => Except.error e
    | Except.ok testSuite =>
      Except.ok (if 0 < (Node.childrenD testSuite).length then some testSuite else none)
termination_by t => 2 * sizeOf t

end

/-- The two lifecycle events fired by `TestLoader.loadTests`. -/
inductive LoadEvent where
  | started
  | finished (suite : Node)

/-- `TestLoader.loadTests`, with the Settings collaborator assumed to load and
the root directory's `fs` outcomes supplied as data.  The async body fires
`started`, awaits the exploration, and fires `finished` afterwards; an
exploration rejection propagates out of the `await`, so the function rejects
with only `started` fired. -/
def loadTests (m : String → Bool) (rootPath : String) (readdirFails : Bool)
    (entries : List FSTree) : List LoadEvent × Except Unit Unit :=
  match exploreDirectory m rootPath readdirFails entries with
  | Except.ok testSuite =>
    ([LoadEvent.started, LoadEvent.finished (Node.suite "root" "Jest" none none (Node.childrenD testSuite))],
      Except.ok ())
  | Except.error e => ([LoadEvent.started], Except.error e)

/-- No string occurs twice in the list. -/
def chkNodup : List String → Bool
  | [] => true
  | x :: xs => !xs.contains x && chkNodup xs

mutual

/-- Every node in this tree, the root included, is a suite node. -/
def wfSuiteN : Node → Bool
  | Node.test _ _ _ _ _ => false
  | Node.suite _ _ _ _ cs => wfSuiteL cs
termination_by n => 2 * sizeOf n

/-- A sibling sequence of suite-only trees whose ids are pairwise distinct at
every level (the data-model invariant of the spec). -/
def wfSuiteL (l : List Node) : Bool :=
  chkNodup (l.map Node.id) && wfSuiteAll l
termination_by 2 * sizeOf l + 1

/-- `wfSuiteN` holds of every element. -/
def wfSuiteAll : List Node → Bool
  | [] => true
  | n :: ns => wfSuiteN n && wfSuiteAll ns
termination_by l => 2 * sizeOf l

end

/-- The chain shape produced by `createDirectoryStructure`, relative to the
`/`-separated segments `segs` of the stripped file path: the result is the
inner node wrapped in zero or more synthetic directory suites, each of which
has no file and no line, a single child, a label that is some segment
`segs[m]`, and an id that is the forward-slash join of the segments up to and
including that one — i.e. the normalized relative path of the directory the
suite represents. -/
inductive Wrapped (segs : List String) (inner : Node) : Node → Prop where
  | refl : Wrapped segs inner inner
  | step (m : Nat) (el : String) (t : Node) :
      Wrapped segs inner t → segs.get? m = some el →
      Wrapped segs inner (Node.suite (String.intercalate "/" (segs.take (m + 1))) el none none [t])

theorem find_self_of_nodup (l : List Node) (s : Node)
    (hnd : chkNodup (l.map Node.id) = true) (hs : s ∈ l) :
    l.find? (fun r => r.id == s.id) = some s := by
  induction l with
  | nil => cases hs
  | cons x xs ih =>
    simp only [List.map_cons, chkNodup, Bool.and_eq_true, Bool.not_eq_true'] at hnd
    rw [List.find?]
    cases hs with
    | head => simp
    | tail _ hmem =>
      have hne : (x.id == s.id) = false := by
        by_contra hcon
        rw [Bool.not_eq_false, beq_iff_eq] at hcon
        have hin : s.id ∈ xs.map Node.id := List.mem_map_of_mem Node.id hmem
        rw [← hcon] at hin
        have hc : (xs.map Node.id).contains x.id = true := List.elem_eq_true_of_mem hin
        rw [hnd.1] at hc
        exact Bool.false_ne_true hc
      rw [hne]
      exact ih hnd.2 hmem

theorem replaceFirstById_self (l : List Node) (i : String) (n : Node)
    (hfind : l.find? (fun r => r.id == i) = some n) :
    replaceFirstById l i n = l := by
  induction l with
  | nil => simp at hfind
  | cons x xs ih =>
    rw [List.find?] at hfind
    rw [replaceFirstById]
    cases hx : (x.id == i) with
    | true =>
      rw [hx] at hfind
      simp at hfind
      simp [hx, hfind]
    | false =>
      rw [hx] at hfind
      simp [hx, ih hfind]

theorem merge_singleton (dest : List Node) (s : Node) : merge dest [s] = mergeStep dest s := by
  rw [merge, merge]

theorem wfAll_mem (l : List Node) (s : Node) (h : wfSuiteAll l = true) (hs : s ∈ l) :
    wfSuiteN s = true := by
  induction l with
  | nil => cases hs
  | cons x xs ih =>
    rw [wfSuiteAll, Bool.and_eq_true] at h
    cases hs with
    | head => exact h.1
    | tail _ hmem => exact ih h.2 hmem

theorem merge_of_fixed (l : List Node) (src : List Node)
    (h : ∀ s ∈ src, mergeStep l s = l) : merge l src = l := by
  induction src with
  | nil => rw [merge]
  | cons s rest ih =>
    rw [merge, h s (List.mem_cons_self s rest)]
    exact ih (fun t ht => h t (List.mem_cons_of_mem s ht))

theorem merge_self_wf (l : List Node) (h : wfSuiteL l = true) : merge l l = l := by
  rw [wfSuiteL, Bool.and_eq_true] at h
  apply merge_of_fixed
  intro s hs
  have hsn := wfAll_mem l s h.2 hs
  cases s with
  | test i lb f ln sk => rw [wfSuiteN] at hsn; exact absurd hsn (by simp)
  | suite i lb f ln cs =>
    rw [wfSuiteN] at hsn
    have hrec : merge cs cs = cs := merge_self_wf cs hsn
    have hfind := find_self_of_nodup l (Node.suite i lb f ln cs) h.1 hs
    unfold mergeStep
    rw [hfind]
    simp only [Node.id]
    rw [hrec]
    exact replaceFirstById_self l i (Node.suite i lb f ln cs) (by simpa [Node.id] using hfind)
termination_by sizeOf l
decreasing_by
  have h1 : sizeOf (Node.suite i lb f ln cs) ≤ sizeOf l := le_of_lt (List.sizeOf_lt_of_mem hs)
  simp only [Node.suite.sizeOf_spec] at h1
  omega

/-- C1, counterexample.  The destination holds the test node with id
`a.test.ts#^x$` at line 1; the source holds a different test node with the
same id (line 2).  `merge` finds the existing entry, but since a test node
has no `children` field the else-branch runs and pushes the source entry:
the colliding entry is appended, not dropped, leaving two nodes with the same
identifier. -/
theorem c1_counterexample :
    merge [Node.test "a.test.ts#^x$" "x" (some "a.test.ts") (some 1) (some false)]
      [Node.test "a.test.ts#^x$" "x" (some "a.test.ts") (some 2) (some false)]
    = [Node.test "a.test.ts#^x$" "x" (some "a.test.ts") (some 1) (some false),
       Node.test "a.test.ts#^x$" "x" (some "a.test.ts") (some 2) (some false)] := by
  simp [merge, mergeStep, List.find?, Node.id]

/-- C1, amended.  For every destination and every source entry whose
identifier equals the identifier of an existing destination TEST node (the
first id-match in the destination has no children), the merge leaves the
destination's original entries unchanged in place but APPENDS the source
entry at the end — the source entry is not dropped, so a second node with
that identifier does appear. -/
theorem c1_append_on_test_collision (dest : List Node) (s ex : Node)
    (hfind : dest.find? (fun r => r.id == s.id) = some ex)
    (hex : ex.isSuite = false) :
    merge dest [s] = dest ++ [s] := by
  rw [merge_singleton]
  unfold mergeStep
  rw [hfind]
  cases ex with
  | test i lb f ln sk => cases s <;> rfl
  | suite i lb f ln cs => simp [Node.isSuite] at hex

/-- C1, witness: the amended statement applied at a concrete collision. -/
theorem c1_witness :
    merge [Node.test "b.test.ts#^y$" "y" (some "b.test.ts") (some 7) (some false)]
      [Node.test "b.test.ts#^y$" "y" (some "b.test.ts") (some 9) (some false)]
    = [Node.test "b.test.ts#^y$" "y" (some "b.test.ts") (some 7) (some false),
       Node.test "b.test.ts#^y$" "y" (some "b.test.ts") (some 9) (some false)] :=
  c1_append_on_test_collision
    [Node.test "b.test.ts#^y$" "y" (some "b.test.ts") (some 7) (some false)]
    (Node.test "b.test.ts#^y$" "y" (some "b.test.ts") (some 9) (some false))
    (Node.test "b.test.ts#^y$" "y" (some "b.test.ts") (some 7) (some false))
    rfl rfl

/-- C4, counterexample.  Merging a sibling sequence holding a single test
node with a structural copy of itself duplicates the test node (the claim
expects the merge to return the original sequence). -/
theorem c4_counterexample :
    merge [Node.test "a.test.ts#^x$" "x" (some "a.test.ts") (some 3) (some false)]
      [Node.test "a.test.ts#^x$" "x" (some "a.test.ts") (some 3) (some false)]
    = [Node.test "a.test.ts#^x$" "x" (some "a.test.ts") (some 3) (some false),
       Node.test "a.test.ts#^x$" "x" (some "a.test.ts") (some 3) (some false)]
    ∧ [Node.test "a.test.ts#^x$" "x" (some "a.test.ts") (some 3) (some false),
       Node.test "a.test.ts#^x$" "x" (some "a.test.ts") (some 3) (some false)]
      ≠ [Node.test "a.test.ts#^x$" "x" (some "a.test.ts") (some 3) (some false)] := by
  constructor
  · simp [merge, mergeStep, List.find?, Node.id]
  · simp

/-- C4, amended.  Merging a sibling sequence with a structural copy of itself
yields the original sequence — no duplicated children at any depth and no
reordering — provided every node in the sequence is a suite node and sibling
identifiers are pairwise distinct at every level (`wfSuiteL`); a test leaf is
instead appended again (see the counterexample). -/
theorem c4_merge_self_idempotent_on_suites (l : List Node) (h : wfSuiteL l = true) :
    merge l l = l :=
  merge_self_wf l h

/-- C4, witness: a two-level suite-only tree merged with itself. -/
theorem c4_witness :
    wfSuiteL [Node.suite "src" "src" none none [Node.suite "src/a.test.ts" "a.test.ts" none none []]] = true
    ∧ merge [Node.suite "src" "src" none none [Node.suite "src/a.test.ts" "a.test.ts" none none []]]
        [Node.suite "src" "src" none none [Node.suite "src/a.test.ts" "a.test.ts" none none []]]
      = [Node.suite "src" "src" none none [Node.suite "src/a.test.ts" "a.test.ts" none none []]] :=
  ⟨by simp [wfSuiteL, wfSuiteN, wfSuiteAll, chkNodup, Node.id],
   c4_merge_self_idempotent_on_suites _ (by simp [wfSuiteL, wfSuiteN, wfSuiteAll, chkNodup, Node.id])⟩

/-- C2: evaluation of `loadTests` at both outcomes of the directory
exploration.  When `fs.readdir` on the root rejects, the exploration rejects,
the rejection surfaces to the caller — but the only event fired is
`started`: the `finished` event is NOT emitted, because nothing in
`loadTests` catches the rejection, contradicting the spec's requirement that
a `started` event is never left without a matching `finished` event.  On the
success path the pair is fired as expected. -/
theorem c2_started_without_finished :
    loadTests (fun _ => true) "/proj" true [] = ([LoadEvent.started], Except.error ())
    ∧ loadTests (fun _ => true) "/proj" false []
      = ([LoadEvent.started,
          LoadEvent.finished (Node.suite "root" "Jest" none none [])], Except.ok ()) := by
  have h1 : exploreDirectory (fun _ => true) "/proj" true [] = Except.error () := by
    rw [exploreDirectory, if_pos rfl]
  have h2 : exploreDirectory (fun _ => true) "/proj" false []
      = Except.ok (Node.suite "/proj" (basename "/proj") (some "/proj") none []) := by
    rw [exploreDirectory, if_neg (by decide), List.filter_nil, exploreAll]
    rfl
  constructor
  · simp only [loadTests, h1]
  · simp only [loadTests, h2]
    rfl

/-- C3: evaluation of the Directory Explorer on a directory holding one
parseable test file and one file on which the parser throws.  The uncaught
throw rejects `evalueFilePath`, and `Promise.all` therefore rejects the whole
exploration: the good file's tests are lost, contradicting the spec's policy
that one bad file must not block discovery of the rest.  With the bad file
removed, the same directory explores successfully. -/
theorem c3_parse_failure_rejects_exploration :
    exploreDirectory (fun _ => true) "/proj" false
      [FSTree.file "good.test.ts" (Except.ok ⟨[ParsedNode.it "adds" 3]⟩),
       FSTree.file "bad.test.ts" (Except.error ())]
      = Except.error ()
    ∧ exploreDirectory (fun _ => true) "/proj" false
        [FSTree.file "good.test.ts" (Except.ok ⟨[ParsedNode.it "adds" 3]⟩)]
      = Except.ok (Node.suite "/proj" "proj" (some "/proj") none
          [Node.suite "/proj/good.test.ts" "good.test.ts" (some "/proj/good.test.ts") none
            [Node.test "/proj/good.test.ts/proj/good.test.ts/adds" "adds"
              (some "/proj/good.test.ts") (some 3) none]]) := by
  have hchild :
      exploreChildren [ParsedNode.it "adds" 3] "/proj/good.test.ts" "/proj/good.test.ts"
        = [Node.test "/proj/good.test.ts/proj/good.test.ts/adds" "adds"
            (some "/proj/good.test.ts") (some 3) none] := by
    rw [exploreChildren, exploreNode, exploreChildren]
    rfl
  have hgood :
      evalueFilePath (fun _ => true) "/proj/good.test.ts"
          (FSTree.file "good.test.ts" (Except.ok ⟨[ParsedNode.it "adds" 3]⟩))
        = Except.ok (some (Node.suite "/proj/good.test.ts" "good.test.ts"
            (some "/proj/good.test.ts") none
            [Node.test "/proj/good.test.ts/proj/good.test.ts/adds" "adds"
              (some "/proj/good.test.ts") (some 3) none])) := by
    rw [evalueFilePath, if_pos rfl]
    unfold exploreFile
    rw [hchild]
    rfl
  have hbad :
      evalueFilePath (fun _ => true) "/proj/bad.test.ts"
          (FSTree.file "bad.test.ts" (Except.error ()))
        = Except.error () := by
    rw [evalueFilePath]
    rfl
  constructor
  · rw [exploreDirectory, if_neg (by decide)]
    rw [show List.filter (fun e => decide (fsName e ≠ "node_modules"))
        [FSTree.file "good.test.ts" (Except.ok ⟨[ParsedNode.it "adds" 3]⟩),
         FSTree.file "bad.test.ts" (Except.error ())]
      = [FSTree.file "good.test.ts" (Except.ok ⟨[ParsedNode.it "adds" 3]⟩),
         FSTree.file "bad.test.ts" (Except.error ())] from rfl]
    rw [exploreAll,
      show pathJoin2 "/proj"
          (fsName (FSTree.file "good.test.ts" (Except.ok ⟨[ParsedNode.it "adds" 3]⟩)))
        = "/proj/good.test.ts" from rfl, hgood]
    rw [exploreAll,
      show pathJoin2 "/proj" (fsName (FSTree.file "bad.test.ts" (Except.error ())))
        = "/proj/bad.test.ts" from rfl, hbad]
  · rw [exploreDirectory, if_neg (by decide)]
    rw [show List.filter (fun e => decide (fsName e ≠ "node_modules"))
        [FSTree.file "good.test.ts" (Except.ok ⟨[ParsedNode.it "adds" 3]⟩)]
      = [FSTree.file "good.test.ts" (Except.ok ⟨[ParsedNode.it "adds" 3]⟩)] from rfl]
    rw [exploreAll,
      show pathJoin2 "/proj"
          (fsName (FSTree.file "good.test.ts" (Except.ok ⟨[ParsedNode.it "adds" 3]⟩)))
        = "/proj/good.test.ts" from rfl, hgood]
    rw [exploreAll]
    rfl

/-- C5, counterexample.  On the empty identifier list the guarded `root`
comparison short-circuits, and `tests[0].includes(TEST_ID_SEPARATOR)` is then
evaluated on `undefined`: the call throws a `TypeError` instead of returning
a value. -/
theorem c5_counterexample : mapTestIdsToTestFilter [] = Except.error () := rfl

/-- C5, amended.  For every NON-empty selection — however malformed, mixed
file and test identifiers included — `mapTestIdsToTestFilter` returns a value
and never throws; the empty list is the one exception (see the
counterexample). -/
theorem c5_nonempty_never_throws (ts : List String) (h : ts ≠ []) :
    ∃ r, mapTestIdsToTestFilter ts = Except.ok r := by
  cases ts with
  | nil => exact absurd rfl h
  | cons t0 rest =>
    simp only [mapTestIdsToTestFilter]
    by_cases h0 : t0 = "root"
    · rw [if_pos h0]; exact ⟨none, rfl⟩
    · rw [if_neg h0]
      by_cases h1 : jsIncludes t0 TEST_ID_SEPARATOR = true
      · rw [if_pos h1]; exact ⟨_, rfl⟩
      · rw [if_neg h1]; exact ⟨_, rfl⟩

/-- C5, witness: the amended statement applied to a singleton selection. -/
theorem c5_witness : ∃ r, mapTestIdsToTestFilter ["x"] = Except.ok r :=
  c5_nonempty_never_throws ["x"] (by decide)

/-- C6.  `mapTestIdsToTestFilter ["root"]` returns `null`; and for every
non-empty list of identifiers each containing the separator, the result is a
file-name pattern alternating the parts before the first separator and a
test-name pattern alternating the (anchored) parts after it, each wrapped in
one group. -/
theorem c6_filter_round_trip :
    mapTestIdsToTestFilter ["root"] = Except.ok none
    ∧ ∀ (ts : List String), ts ≠ [] →
      (∀ t ∈ ts, jsIncludes t TEST_ID_SEPARATOR = true) →
      mapTestIdsToTestFilter ts = Except.ok (some
        { testFileNamePattern :=
            "(" ++ String.intercalate "|"
              (ts.map (fun t => (jsSplit t TEST_ID_SEPARATOR).headD "")) ++ ")",
          testNamePattern := some
            ("(" ++ String.intercalate "|"
              (ts.map (fun t => ((jsSplit t TEST_ID_SEPARATOR).get? 1).getD "undefined")) ++ ")") }) := by
  constructor
  · rfl
  · intro ts hne hall
    cases ts with
    | nil => exact absurd rfl hne
    | cons t0 rest =>
      have h0 : jsIncludes t0 TEST_ID_SEPARATOR = true := hall t0 (List.mem_cons_self t0 rest)
      have hroot : t0 ≠ "root" := by
        rintro rfl
        rw [show jsIncludes "root" TEST_ID_SEPARATOR = false from by decide] at h0
        exact Bool.false_ne_true h0
      simp only [mapTestIdsToTestFilter, if_neg hroot, if_pos h0]

/-- C6, witness: the round-trip example from the spec, separator `#`. -/
theorem c6_witness :
    mapTestIdsToTestFilter ["/a/b.test.ts#^foo$", "/a/b.test.ts#^bar$"]
      = Except.ok (some
        { testFileNamePattern := "(/a/b.test.ts|/a/b.test.ts)",
          testNamePattern := some "(^foo$|^bar$)" }) := by
  have h := c6_filter_round_trip.2 ["/a/b.test.ts#^foo$", "/a/b.test.ts#^bar$"]
    (by decide) (by decide)
  rw [h]
  rfl

theorem wrapped_cds (segs : List String) (inner : Node) :
    ∀ (j : Nat) (t : Node), Wrapped segs inner t → Wrapped segs inner (cds segs t j) := by
  intro j
  induction j using Nat.strong_induction_on with
  | _ j ih =>
    match j with
    | 0 =>
      intro t ht
      rw [cds]
      exact ht
    | j' + 1 =>
      intro t ht
      rw [cds]
      cases hg : segs.get? j' with
      | none => exact ht
      | some el =>
        simp only []
        by_cases hel : el = ""
        · subst hel
          rw [if_pos rfl]
          match j' with
          | 0 =>
            rw [cdsSkip]
            exact ht
          | k + 1 =>
            rw [cdsSkip]
            cases hg2 : segs.get? k with
            | none => exact ht
            | some el2 =>
              exact ih k (by omega) _ (Wrapped.step k el2 t ht hg2)
        · rw [if_neg hel]
          exact ih j' (by omega) _ (Wrapped.step j' el t ht hg)

/-- C7, counterexample.  The claim ranges over every tree-building operation,
but `TestLoader`'s `exploreNode` builds a test id with `path.join(file,
prefix, name)` on absolute paths: for the it-block `x` at line 5 of
`/r/a.test.ts` (explored with prefix = file, as `exploreFile` does) the id is
`/r/a.test.ts/r/a.test.ts/x`.  That id differs from the
`<relative-path><SEPARATOR>^<escaped-name>$` identifier the claim mandates
(here `/a.test.ts#^x$` for working directory `/r`) — it does not even contain
the separator. -/
theorem c7_counterexample :
    exploreNode (ParsedNode.it "x" 5) "/r/a.test.ts" "/r/a.test.ts"
      = some (Node.test "/r/a.test.ts/r/a.test.ts/x" "x" (some "/r/a.test.ts") (some 5) none)
    ∧ "/r/a.test.ts/r/a.test.ts/x" ≠ getTestId "/r" "/r/a.test.ts" "x"
    ∧ jsIncludes "/r/a.test.ts/r/a.test.ts/x" TEST_ID_SEPARATOR = false := by
  refine ⟨by rw [exploreNode]; rfl, by decide, by decide⟩

/-- C7, amended: the identifier invariant holds of the MAPPER's tree building
(not of `TestLoader`'s).  For every working directory, file name and list of
test cases: (1) a test's identifier is the stripped-and-normalized relative
file path, then the separator, then `^`, the regex-escaped full title, and
`$`; (2) `transformFileResultIntoTree` returns the file suite — whose id is
the normalized relative path and whose label is its last `/`-segment —
wrapped in synthetic directory suites each of whose ids is the forward-slash
join of a take-prefix of the relative path's segments (the normalized
relative path of the directory it represents) and whose label is the
corresponding segment (`Wrapped`). -/
theorem c7_mapper_identifier_format : ∀ (workDir fileName : String) (cs : List Node),
    (∀ testName, getTestId workDir fileName testName
      = stripWorkDir workDir fileName ++ TEST_ID_SEPARATOR ++ "^" ++ escapeRegExp testName ++ "$")
    ∧ Wrapped (jsSplit (stripWorkDir workDir fileName) "/")
        (Node.suite (stripWorkDir workDir fileName)
          ((jsSplit (stripWorkDir workDir fileName) "/").getLastD "")
          (some fileName) none cs)
        (transformFileResultIntoTree workDir fileName cs) := by
  intro workDir fileName cs
  refine ⟨fun _ => rfl, ?_⟩
  unfold transformFileResultIntoTree
  exact wrapped_cds _ _ _ _ Wrapped.refl

/-- C8.  For every assertion mapped with a reconciled-status source: the
node's `skipped` flag is `true` exactly when a status resolves and its kind
is `"KnownSkip"`; the node's line is the resolved status's (possibly absent)
line, and `none` when nothing resolves; no status resolves without a source;
and with a source, the resolved status is the first record for the file whose
title equals the assertion's full name. -/
theorem c8_skipped_and_line_from_status (workDir : String) (a : JestAssertionResults)
    (f : JestFileResults) (rc : Option TestReconciler) :
    ((mapJestAssertionToTestInfo workDir a f rc).skippedD = some true
      ↔ ∃ st, getAssertionStatus a f.name rc = some st ∧ st.status = "KnownSkip")
    ∧ (mapJestAssertionToTestInfo workDir a f rc).lineD
        = (getAssertionStatus a f.name rc).bind TestAssertionStatus.line
    ∧ getAssertionStatus a f.name none = none
    ∧ (∀ r : TestReconciler, getAssertionStatus a f.name (some r)
        = ((r.assertionsForTestFile f.name).getD []).find? (fun x => x.title == a.fullName)) := by
  refine ⟨?_, ?_, rfl, fun r => rfl⟩
  · cases hst : getAssertionStatus a f.name rc with
    | none => simp [mapJestAssertionToTestInfo, hst, Node.skippedD]
    | some st => simp [mapJestAssertionToTestInfo, hst, Node.skippedD, beq_iff_eq]
  · cases hst : getAssertionStatus a f.name rc with
    | none => simp [mapJestAssertionToTestInfo, hst, Node.lineD]
    | some st => simp [mapJestAssertionToTestInfo, hst, Node.lineD]

theorem remove_of_no_match (pat l : List Char) (h : hasMatchCI pat l = false) :
    removeAux pat 0 l = l := by
  induction l with
  | nil => rw [removeAux]
  | cons c cs ih =>
    rw [hasMatchCI, Bool.or_eq_false_iff] at h
    rw [removeAux]
    simp only [h.1, Bool.and_false]
    rw [if_neg Bool.false_ne_true, ih h.2]

theorem normSlashes_idem (l : List Char) : normSlashes (normSlashes l) = normSlashes l := by
  induction l with
  | nil => rfl
  | cons c cs ih =>
    simp only [normSlashes, List.map_cons] at ih ⊢
    by_cases hc : c = '\\' <;> simp [hc, ih]

/-- C9, counterexample.  The strip step removes every case-insensitive
occurrence of the working directory, and removing occurrences can splice a
new one together: for working directory `ab` and path `abaabb` (which begins
with the prefix), the first application yields `ab` and a second application
yields `""` — applying the strip-and-normalize step a second time to the
already-relative result does NOT leave it unchanged. -/
theorem c9_counterexample :
    stripWorkDir "ab" (stripWorkDir "ab" "abaabb") ≠ stripWorkDir "ab" "abaabb" := by
  decide

/-- C9, amended.  The strip-and-normalize step is idempotent whenever its
result no longer contains a case-insensitive occurrence of the
working-directory prefix (removal can otherwise splice a fresh occurrence
together, see the counterexample); and when the prefix does not occur in a
path at all, the removal step leaves the path unchanged (only backslash
normalization applies). -/
theorem c9_strip_idempotent_when_stable (workDir p : String) :
    (hasMatchCI workDir.data (stripWorkDir workDir p).data = false →
      stripWorkDir workDir (stripWorkDir workDir p) = stripWorkDir workDir p)
    ∧ (hasMatchCI workDir.data p.data = false →
      removeAux workDir.data 0 p.data = p.data) := by
  constructor
  · intro h
    have h' : hasMatchCI workDir.data (normSlashes (removeAux workDir.data 0 p.data)) = false := h
    show String.mk (normSlashes (removeAux workDir.data 0
        (normSlashes (removeAux workDir.data 0 p.data))))
      = String.mk (normSlashes (removeAux workDir.data 0 p.data))
    rw [remove_of_no_match _ _ h', normSlashes_idem]
  · exact remove_of_no_match workDir.data p.data

/-- C9, witness: the amended statement applied at working directory `/r` and
path `/r/a.test.ts`, whose stripped form `/a.test.ts` contains no further
occurrence of the prefix. -/
theorem c9_witness :
    stripWorkDir "/r" (stripWorkDir "/r" "/r/a.test.ts") = stripWorkDir "/r" "/r/a.test.ts" :=
  (c9_strip_idempotent_when_stable "/r" "/r/a.test.ts").1 (by decide)

/-- C10.  (1) A parse result with no it-blocks contributes nothing to the
returned tree: the whole mapping is unchanged when such an entry is removed
from the input, wherever it sits.  (2) An it-block whose name is missing or
empty produces a test node labeled `test has no name` (the fallback name also
feeds the identifier). -/
theorem c10_empty_parse_omitted_and_unnamed_label :
    (∀ (workDir : String) (pre post : List IParseResults),
      mapJestParseToTestSuiteInfo workDir (pre ++ ({ itBlocks := [] } : IParseResults) :: post)
        = mapJestParseToTestSuiteInfo workDir (pre ++ post))
    ∧ (∀ (workDir : String) (b : ItBlock), b.name = none ∨ b.name = some "" →
      mapItBlockToTestInfo workDir b
        = Node.test (getTestId workDir b.file "test has no name") "test has no name"
            (some b.file) (some b.startLine) (some false)) := by
  constructor
  · intro workDir pre post
    have h : mapFileParse workDir { itBlocks := [] } = none := rfl
    simp [mapJestParseToTestSuiteInfo, List.filterMap_append, List.filterMap_cons, h]
  · intro workDir b hb
    cases hb with
    | inl h => simp [mapItBlockToTestInfo, h]
    | inr h => simp [mapItBlockToTestInfo, h]

/-- C10, witness: part (2) applied to a concrete nameless it-block. -/
theorem c10_witness :
    mapItBlockToTestInfo "" { file := "f.ts", name := none, startLine := 3 }
      = Node.test (getTestId "" "f.ts" "test has no name") "test has no name"
          (some "f.ts") (some 3) (some false) :=
  c10_empty_parse_omitted_and_unnamed_label.2 "" { file := "f.ts", name := none, startLine := 3 }
    (Or.inl rfl)
